import Mathlib

set_option maxRecDepth 10000

/-!
Shallow embedding of the external-tool orchestration and hook-installation
core of `pre-commit-rs` (files `src/git.rs` and `src/cli/install.rs`),
together with theorems checking the natural-language specification.

Subprocess invocations are modelled by their observable interface: an exit
status (`ProcExit`, mirroring `std::process::ExitStatus` where `success()`
holds exactly when the exit code is 0 and `code()` is `None` for signal
termination) and captured stdout (a `String`, the image of
`String::from_utf8_lossy`). Filesystem state touched by the hook-script
manager is modelled per hook type as the optional content of the hook file
and of its `.legacy` sibling.
-/

namespace PreCommit

/-- Exit status of a child process: `code = some n` for exit code `n`,
`none` for termination by signal (as in `ExitStatus::code()`). -/
structure ProcExit where
  code : Option Int
deriving DecidableEq

/-- `ExitStatus::success()`: exited with code 0. -/
def ProcExit.success (s : ProcExit) : Bool := s.code == some 0

/-- Errors surfaced by the git layer (`git::Error` / `process::Error`):
a strict-checked or explicitly checked command failed with this status. -/
inductive GitError where
  | executionFailed (status : ProcExit)
deriving DecidableEq

/-! ### `git.rs`: `zsplit` and the list-producing operations -/

/-- Rust `str::trim_end_matches('\0')` on the character list: drop all
trailing NUL characters. -/
def trimEndNul (l : List Char) : List Char :=
  (l.reverse.dropWhile (fun c => c == '\x00')).reverse

/-- Rust `str::split('\0')`: the fields between NUL separators, empty
fields included; always at least one field. -/
def splitNul : List Char → List (List Char)
  | [] => [[]]
  | c :: rest =>
    if c == '\x00' then
      [] :: splitNul rest
    else
      match splitNul rest with
      | f :: fs => (c :: f) :: fs
      | [] => [[c]]

/-- `git.rs::zsplit`: trim trailing NULs; an empty remainder yields `[]`,
otherwise split on NUL. -/
def zsplit (s : String) : List String :=
  let t := trimEndNul s.data
  if t.isEmpty then [] else (splitNul t).map String.mk

/-- `git.rs::intent_to_add_files`, applied to the stdout of the
strict-checked `git diff --diff-filter=A --name-only -z` invocation. -/
def intent_to_add_files (stdout : String) : List String := zsplit stdout

/-- `git.rs::get_changed_files`, applied to the stdout of the
strict-checked `git diff --name-only -z old...new` invocation. -/
def get_changed_files (stdout : String) : List String := zsplit stdout

/-- `git.rs::get_all_files`, applied to the stdout of the strict-checked
`git ls-files -z` invocation. -/
def get_all_files (stdout : String) : List String := zsplit stdout

/-- `git.rs::get_staged_files`, applied to the stdout of the
strict-checked `git diff --staged --name-only -z` invocation. -/
def get_staged_files (stdout : String) : List String := zsplit stdout

/-! ### `git.rs`: `is_dirty` and `has_hooks_path_set` -/

/-- `git.rs::is_dirty`: interpret the unchecked `git diff --quiet` result.
Exit 0 means clean, exit 1 means dirty, anything else is an error
(`cmd.check_status(output.status).unwrap_err()`). -/
def is_dirty (status : ProcExit) : Except GitError Bool :=
  if status.success then
    .ok false
  else if status.code == some 1 then
    .ok true
  else
    .error (.executionFailed status)

/-- `git.rs::has_hooks_path_set`: the unchecked
`git config --get core.hooksPath` result; on success, true iff the trimmed
stdout is non-empty; on non-zero exit, false (never an error). -/
def has_hooks_path_set (status : ProcExit) (stdout : String) : Bool :=
  if status.success then
    !(stdout.trim.isEmpty)
  else
    false

/-! ### `git.rs`: repository acquisition (`clone_repo`) -/

/-- The git commands issued by `init_repo`, `shallow_clone` and
`full_clone`, in the order they appear in the source. -/
inductive CloneCmd where
  | initCmd          -- `git init --template= path`
  | remoteAdd        -- `git remote add origin url`
  | shallowFetch     -- `git -c protocol.version=2 fetch origin rev --depth=1`
  | shallowCheckout  -- `git checkout FETCH_HEAD`
  | shallowSubmodule -- `git -c protocol.version=2 submodule update --init --recursive --depth=1`
  | fullFetch        -- `git fetch origin --tags`
  | fullCheckout     -- `git checkout rev`
  | fullSubmodule    -- `git submodule update --init --recursive`
deriving DecidableEq

/-- Run a sequence of strict-checked commands under outcome environment
`env` (`true` = exit 0). Returns whether the whole sequence succeeded and
the trace of commands actually issued: on the first failure the sequence
stops (`?` propagation), with the failing command still in the trace. -/
def runSeq (env : CloneCmd → Bool) : List CloneCmd → Bool × List CloneCmd
  | [] => (true, [])
  | c :: rest =>
    if env c then
      let r := runSeq env rest
      (r.1, c :: r.2)
    else
      (false, [c])

/-- `git.rs::init_repo`: `git init` then `git remote add origin`. -/
def init_repo (env : CloneCmd → Bool) : Bool × List CloneCmd :=
  runSeq env [.initCmd, .remoteAdd]

/-- `git.rs::shallow_clone`: depth-1 fetch, checkout `FETCH_HEAD`,
depth-1 recursive submodule init. -/
def shallow_clone (env : CloneCmd → Bool) : Bool × List CloneCmd :=
  runSeq env [.shallowFetch, .shallowCheckout, .shallowSubmodule]

/-- `git.rs::full_clone`: fetch all tags, checkout the revision by name,
full recursive submodule init. -/
def full_clone (env : CloneCmd → Bool) : Bool × List CloneCmd :=
  runSeq env [.fullFetch, .fullCheckout, .fullSubmodule]

/-- Observable outcome of `clone_repo`: overall success, the trace of git
commands issued, and the number of warnings logged. -/
structure CloneRun where
  ok : Bool
  trace : List CloneCmd
  warnings : Nat
deriving DecidableEq

/-- `git.rs::clone_repo`: `init_repo` (propagating its failure), then
`shallow_clone`; on shallow failure, log one warning and fall back to
`full_clone`, whose result becomes the overall result. -/
def clone_repo (env : CloneCmd → Bool) : CloneRun :=
  let i := init_repo env
  if i.1 then
    let s := shallow_clone env
    if s.1 then
      ⟨true, i.2 ++ s.2, 0⟩
    else
      let f := full_clone env
      ⟨f.1, i.2 ++ s.2 ++ f.2, 1⟩
  else
    ⟨false, i.2, 0⟩

/-! ### `cli/install.rs`: hook types and hook-type resolution -/

/-- Modelled from the spec: the `HookType` enumeration is declared in
`crate::cli`, outside the provided sources. The spec describes it as a
closed enumeration of git hook events (`pre-commit`, `pre-merge-commit`,
`pre-push`, `commit-msg`, ...) whose canonical string names match git's
hook filenames, with `pre-commit` (`HookType::PreCommit`) the default. -/
inductive HookType where
  | preCommit
  | preMergeCommit
  | prePush
  | commitMsg
deriving DecidableEq

/-- `HookType::as_str`: the canonical git hook filename. -/
def HookType.asStr : HookType → String
  | .preCommit => "pre-commit"
  | .preMergeCommit => "pre-merge-commit"
  | .prePush => "pre-push"
  | .commitMsg => "commit-msg"

/-- The loaded project configuration, as consumed by `get_hook_types`:
`project.config().default_install_hook_types` is an optional list
(`clone().unwrap_or_default()` maps `None` to the empty list). -/
structure ProjectConfig where
  default_install_hook_types : Option (List HookType)

/-- `cli/install.rs::get_hook_types`. `project = none` models
`Project::from_config_file` returning `Err`. -/
def get_hook_types (project : Option ProjectConfig) (hook_types : List HookType) :
    List HookType :=
  let resolved :=
    if hook_types.isEmpty then
      match project with
      | some p => p.default_install_hook_types.getD []
      | none => []
    else
      hook_types
  if resolved.isEmpty then [HookType.preCommit] else resolved

/-! ### `cli/install.rs`: the hook script template and ownership check

Rust `str::replace` and `str::contains` are embedded as character-list
functions with Rust's semantics: `replaceAux` rewrites every
non-overlapping occurrence of the pattern left to right (all patterns used
by the source are non-empty), and `hasSubstr` tests for an occurrence of
the pattern anywhere in the string. -/

/-- Replace occurrences of `pat` by `rep`, left to right, non-overlapping.
The fuel argument (instantiated with the length of the scanned list) makes
the recursion structural; it only ever decreases slower than the list when
`pat` is empty, in which case no rewriting happens at all. -/
def replaceAux (pat rep : List Char) : Nat → List Char → List Char
  | _, [] => []
  | 0, l => l
  | fuel + 1, c :: rest =>
    if !pat.isEmpty && pat.isPrefixOf (c :: rest) then
      rep ++ replaceAux pat rep fuel ((c :: rest).drop pat.length)
    else
      c :: replaceAux pat rep fuel rest

/-- Rust `str::replace` (for the non-empty patterns the source uses). -/
def strReplace (s pat rep : String) : String :=
  String.mk (replaceAux pat.data rep.data s.data.length s.data)

/-- Does `pat` occur as a contiguous substring of `l`? -/
def hasSubstr (pat : List Char) : List Char → Bool
  | [] => pat.isEmpty
  | c :: rest => pat.isPrefixOf (c :: rest) || hasSubstr pat rest

/-- Rust `str::contains` with a string pattern. -/
def strContains (s pat : String) : Bool :=
  hasSubstr pat.data s.data

/-- `cli/install.rs::HOOK_TMPL` (the `indoc!` template, braces written as
their escapes). -/
def HOOK_TMPL : String :=
  "#!/usr/bin/env bash\n# File generated by pre-commit-rs: https://github.com/j178/pre-commit-rs\n# ID: 182c10f181da4464a3eec51b83331688\n\nARGS=(hook-impl)\n\nHERE=\"$(cd \"$(dirname \"$0\")\" && pwd)\"\nARGS+=(--hook-dir \"$HERE\" -- \"$@\")\nPRE_COMMIT=\"pre-commit\"\n\nexec \"$PRE_COMMIT\" \"$\x7bARGS[@]\x7d\"\n\n"

/-- `cli/install.rs::PRIOR_HASHES`: empty in this snapshot. -/
def PRIOR_HASHES : List String := []

/-- `cli/install.rs::CURRENT_HASH`. -/
def CURRENT_HASH : String := "182c10f181da4464a3eec51b83331688"

/-- `cli/install.rs::is_our_script`, applied to the file content read by
`fs_err::read_to_string`: does the content contain the current hash or any
prior hash? -/
def is_our_script (content : String) : Bool :=
  (CURRENT_HASH :: PRIOR_HASHES).any (fun h => strContains content h)

/-- The `args` vector built by `install_hook_script` from the hook type,
the optional config file path and the skip-on-missing-config flag. -/
def hookArgs (hook_type : HookType) (config_file : Option String)
    (skip_on_missing_config : Bool) : List String :=
  ["hook-impl", "--hook-type=" ++ hook_type.asStr]
    ++ (match config_file with
        | some c => ["--config=\"" ++ c ++ "\""]
        | none => [])
    ++ (if skip_on_missing_config then ["--skip-on-missing-config"] else [])

/-- The generated hook script: `HOOK_TMPL` with the `ARGS=(hook-impl)`
line and the `PRE_COMMIT="pre-commit"` line substituted
(`pre_commit` is the simplified path of the current executable). -/
def hookScript (hook_type : HookType) (config_file : Option String)
    (skip_on_missing_config : Bool) (pre_commit : String) : String :=
  strReplace
    (strReplace HOOK_TMPL "ARGS=(hook-impl)"
      ("ARGS=(" ++ String.intercalate " " (hookArgs hook_type config_file skip_on_missing_config) ++ ")"))
    "PRE_COMMIT=\"pre-commit\""
    ("PRE_COMMIT=\"" ++ pre_commit ++ "\"")

/-! ### `cli/install.rs`: install / uninstall state machines -/

/-- Per-hook-type filesystem state: content of `hooks_dir/<type>` and of
`hooks_dir/<type>.legacy` (`none` = file absent). -/
structure HookFiles where
  hook : Option String
  legacy : Option String
deriving DecidableEq

/-- The user-visible reports emitted by install/uninstall. -/
inductive Msg where
  | refusingHooksPath
  | overwriting (t : HookType)
  | movedToLegacy (t : HookType)
  | installed (t : HookType)
  | skippedMissing (t : HookType)
  | skippedUnmanaged (t : HookType)
  | uninstalled (t : HookType)
  | restored (t : HookType)
deriving DecidableEq

/-- `cli/install.rs::install_hook_script`, acting on the state of one hook
type. If the hook file exists: under `overwrite` just report; otherwise,
if it is not manager-owned, rename it to the `.legacy` path (replacing any
file there) and report. In every case the fresh script is then written
(create/truncate) and made executable, and installation is reported. -/
def install_hook_script (config_file : Option String) (hook_type : HookType)
    (overwrite skip_on_missing_config : Bool) (pre_commit : String)
    (st : HookFiles) : HookFiles × List Msg :=
  let script := hookScript hook_type config_file skip_on_missing_config pre_commit
  match st.hook with
  | some content =>
    if overwrite then
      (⟨some script, st.legacy⟩, [.overwriting hook_type, .installed hook_type])
    else if is_our_script content then
      (⟨some script, st.legacy⟩, [.installed hook_type])
    else
      (⟨some script, some content⟩, [.movedToLegacy hook_type, .installed hook_type])
  | none => (⟨some script, st.legacy⟩, [.installed hook_type])

/-- The body of `cli/install.rs::uninstall` for one hook type: skip when
the hook file is absent or not manager-owned; otherwise delete it and, if
a `.legacy` backup exists, rename it back into place. -/
def uninstall_hook (hook_type : HookType) (st : HookFiles) : HookFiles × List Msg :=
  match st.hook with
  | none => (st, [.skippedMissing hook_type])
  | some content =>
    if is_our_script content then
      match st.legacy with
      | some l => (⟨some l, none⟩, [.uninstalled hook_type, .restored hook_type])
      | none => (⟨none, st.legacy⟩, [.uninstalled hook_type])
    else
      (st, [.skippedUnmanaged hook_type])

/-- `cli::ExitStatus` (declared outside the provided sources; `install.rs`
uses its `Success` and `Failure` variants). -/
inductive CliExit where
  | success
  | failure
deriving DecidableEq

/-- The hooks directory: one `HookFiles` state per hook type. -/
def HooksDir : Type := HookType → HookFiles

/-- Update the state of one hook type. -/
def HooksDir.set (fs : HooksDir) (t : HookType) (st : HookFiles) : HooksDir :=
  fun u => if u = t then st else fs u

/-- `cli/install.rs::install` (the hook-script part; `install_hooks`
environment initialization is delegated to the store and does not touch
the hooks directory). Refuses up front when `core.hooksPath` is set;
otherwise resolves hook types and runs `install_hook_script` for each. -/
def install (hooks_path_set : Bool) (project : Option ProjectConfig)
    (config_file : Option String) (hook_types : List HookType)
    (overwrite allow_missing_config : Bool) (pre_commit : String)
    (fs : HooksDir) : CliExit × HooksDir × List Msg :=
  if hooks_path_set then
    (.failure, fs, [.refusingHooksPath])
  else
    let tys := get_hook_types project hook_types
    let r := tys.foldl
      (fun (acc : HooksDir × List Msg) t =>
        let step := install_hook_script config_file t overwrite
          allow_missing_config pre_commit (acc.1 t)
        (acc.1.set t step.1, acc.2 ++ step.2))
      (fs, [])
    (.success, r.1, r.2)

/-- `cli/install.rs::uninstall`: resolves hook types with the same
`get_hook_types` and runs the per-type uninstall body; always returns
`ExitStatus::Success`. -/
def uninstall (project : Option ProjectConfig) (hook_types : List HookType)
    (fs : HooksDir) : CliExit × HooksDir × List Msg :=
  let r := (get_hook_types project hook_types).foldl
    (fun (acc : HooksDir × List Msg) t =>
      let step := uninstall_hook t (acc.1 t)
      (acc.1.set t step.1, acc.2 ++ step.2))
    (fs, [])
  (.success, r.1, r.2)

/-! ### Auxiliary definitions used by the statements and proofs -/

/-- The part of `HOOK_TMPL` up to and including the hash line (and the
blank line after it): the region untouched by both substitutions. -/
def TPRE : String :=
  "#!/usr/bin/env bash\n# File generated by pre-commit-rs: https://github.com/j178/pre-commit-rs\n# ID: 182c10f181da4464a3eec51b83331688\n\n"

/-- The rest of `HOOK_TMPL` after `TPRE`. -/
def TREST : String :=
  "ARGS=(hook-impl)\n\nHERE=\"$(cd \"$(dirname \"$0\")\" && pwd)\"\nARGS+=(--hook-dir \"$HERE\" -- \"$@\")\nPRE_COMMIT=\"pre-commit\"\n\nexec \"$PRE_COMMIT\" \"$\x7bARGS[@]\x7d\"\n\n"

/-- Does the list contain two adjacent NUL characters? -/
def hasAdjNul : List Char → Bool
  | c :: d :: rest => (c == '\x00' && d == '\x00') || hasAdjNul (d :: rest)
  | _ => false

/-- A command-outcome environment in which only the shallow fetch fails. -/
def envShallowFails : CloneCmd → Bool :=
  fun c => decide (c ≠ CloneCmd.shallowFetch)

/-! ### Helper lemmas: string replacement and the ownership marker -/

theorem replaceAux_append (pat rep : List Char) (c : Char)
    (hpat : pat.head? = some c) (l₁ l₂ : List Char) (hc : c ∉ l₁) (n : Nat) :
    replaceAux pat rep (l₁.length + n) (l₁ ++ l₂) = l₁ ++ replaceAux pat rep n l₂ := by
  obtain ⟨p, rfl⟩ : ∃ p, pat = c :: p := by
    cases pat with
    | nil => simp at hpat
    | cons a t =>
      refine ⟨t, ?_⟩
      have : a = c := by simpa using hpat
      rw [this]
  induction l₁ with
  | nil => simp
  | cons d t ih =>
    have hcd : ¬(c = d) := fun h => hc (h ▸ List.mem_cons_self d t)
    have hct : c ∉ t := fun h => hc (List.mem_cons_of_mem d h)
    have : (d :: t).length + n = (t.length + n) + 1 := by
      simp [Nat.add_right_comm]
    rw [this, List.cons_append]
    simp only [replaceAux, List.isPrefixOf, beq_iff_eq, hcd, false_and,
      Bool.false_and, Bool.and_false, Bool.false_eq_true, if_false,
      decide_eq_true_eq, Bool.and_eq_true, List.isEmpty_cons]
    rw [if_neg (by simp [hcd])]
    exact congrArg (d :: ·) (ih hct)

theorem strReplace_data_append (s pat rep : String) (c : Char)
    (hpat : pat.data.head? = some c) (l₁ l₂ : List Char)
    (hs : s.data = l₁ ++ l₂) (hc : c ∉ l₁) :
    (strReplace s pat rep).data
      = l₁ ++ replaceAux pat.data rep.data l₂.length l₂ := by
  show replaceAux pat.data rep.data s.data.length s.data = _
  rw [hs, List.length_append]
  exact replaceAux_append pat.data rep.data c hpat l₁ l₂ hc l₂.length

theorem isPrefixOf_append_mono (pat l₁ l₂ : List Char)
    (h : pat.isPrefixOf l₁ = true) : pat.isPrefixOf (l₁ ++ l₂) = true := by
  rw [List.isPrefixOf_iff_prefix] at h ⊢
  exact h.trans (List.prefix_append l₁ l₂)

theorem hasSubstr_append_left (pat l₁ l₂ : List Char)
    (h : hasSubstr pat l₁ = true) : hasSubstr pat (l₁ ++ l₂) = true := by
  induction l₁ with
  | nil =>
    have hp : pat = [] := by simpa [hasSubstr] using h
    subst hp
    induction l₂ with
    | nil => rfl
    | cons d t ih => simp [hasSubstr, List.isPrefixOf]
  | cons d t ih =>
    simp only [hasSubstr, Bool.or_eq_true] at h
    rw [List.cons_append]
    simp only [hasSubstr, Bool.or_eq_true]
    rcases h with h | h
    · exact Or.inl (by simpa using isPrefixOf_append_mono pat (d :: t) l₂ h)
    · exact Or.inr (ih h)

/-- The generated hook script always contains the current content-hash
marker: both substitutions leave the `TPRE` region (which carries the
marker) intact, because neither pattern's first character occurs there. -/
theorem hookScript_is_ours (ht : HookType) (cfg : Option String)
    (skip : Bool) (pc : String) :
    is_our_script (hookScript ht cfg skip pc) = true := by
  have hsplit : HOOK_TMPL.data = TPRE.data ++ TREST.data := by decide
  have h1 := strReplace_data_append HOOK_TMPL "ARGS=(hook-impl)"
    ("ARGS=(" ++ String.intercalate " " (hookArgs ht cfg skip) ++ ")")
    'A' (by decide) TPRE.data TREST.data hsplit (by decide)
  have h2 := strReplace_data_append _ "PRE_COMMIT=\"pre-commit\""
    ("PRE_COMMIT=\"" ++ pc ++ "\"") 'P' (by decide) TPRE.data _ h1 (by decide)
  have h3 : hasSubstr CURRENT_HASH.data (hookScript ht cfg skip pc).data = true := by
    rw [show (hookScript ht cfg skip pc).data
          = (strReplace (strReplace HOOK_TMPL "ARGS=(hook-impl)"
              ("ARGS=(" ++ String.intercalate " " (hookArgs ht cfg skip) ++ ")"))
              "PRE_COMMIT=\"pre-commit\""
              ("PRE_COMMIT=\"" ++ pc ++ "\"")).data from rfl, h2]
    exact hasSubstr_append_left _ _ _ (by decide)
  simp [is_our_script, PRIOR_HASHES, strContains, h3]

/-- Every branch of `install_hook_script` writes the fresh script at the
hook path. -/
theorem install_hook_script_hook (cfg : Option String) (ht : HookType)
    (ow skip : Bool) (pc : String) (st : HookFiles) :
    ((install_hook_script cfg ht ow skip pc st).1).hook
      = some (hookScript ht cfg skip pc) := by
  unfold install_hook_script
  cases st.hook with
  | none => rfl
  | some content =>
    by_cases how : ow <;> by_cases hours : is_our_script content <;>
      simp [how, hours]

/-! ### Helper lemmas: NUL splitting -/

theorem splitNul_ne_nil (l : List Char) : splitNul l ≠ [] := by
  cases l with
  | nil => simp [splitNul]
  | cons c rest =>
    unfold splitNul
    by_cases h : c == '\x00'
    · simp [h]
    · simp only [h, Bool.false_eq_true, if_false]
      split <;> simp

theorem head?_dropWhile (p : Char → Bool) (l : List Char) :
    ∀ c, (l.dropWhile p).head? = some c → p c = false := by
  induction l with
  | nil => intro c h; simp [List.dropWhile] at h
  | cons d t ih =>
    intro c h
    by_cases hd : p d
    · rw [List.dropWhile_cons_of_pos hd] at h
      exact ih c h
    · rw [List.dropWhile_cons_of_neg hd] at h
      simp only [List.head?_cons, Option.some.injEq] at h
      subst h
      simpa using hd

theorem trimEndNul_getLast (l : List Char) :
    (trimEndNul l).getLast? ≠ some '\x00' := by
  unfold trimEndNul
  rw [List.getLast?_reverse]
  intro h
  have := head?_dropWhile (fun c => c == '\x00') l.reverse _ h
  simp at this

/-- Joint induction: if a character list has no adjacent NULs and does not
end in NUL, then (a) no field after the first is empty, and (b) when it is
moreover non-empty and does not start with NUL, no field at all is empty. -/
theorem splitNul_fields (l : List Char) :
    (hasAdjNul l = false → l.getLast? ≠ some '\x00' → [] ∉ (splitNul l).tail) ∧
    (l ≠ [] → hasAdjNul l = false → l.head? ≠ some '\x00' →
      l.getLast? ≠ some '\x00' → [] ∉ splitNul l) := by
  induction l with
  | nil => exact ⟨fun _ _ => by simp [splitNul], fun h => absurd rfl h⟩
  | cons c rest ih =>
    obtain ⟨ihA, ihB⟩ := ih
    have tailCase : ∀ (hc : ¬(c == '\x00') = true),
        hasAdjNul (c :: rest) = false → (c :: rest).getLast? ≠ some '\x00' →
        ∀ f fs, splitNul rest = f :: fs → [] ∉ fs := by
      intro hc hadj hlast f fs hrest
      cases rest with
      | nil =>
        simp only [splitNul] at hrest
        injection hrest with h1 h2
        simp [← h2]
      | cons d t =>
        have hadj' : hasAdjNul (d :: t) = false := by
          simp only [hasAdjNul, Bool.or_eq_false_iff] at hadj
          exact hadj.2
        have hlast' : (d :: t).getLast? ≠ some '\x00' := by
          rwa [List.getLast?_cons_cons] at hlast
        have : fs = (splitNul (d :: t)).tail := by rw [hrest]; rfl
        rw [this]
        exact ihA hadj' hlast'
    constructor
    · intro hadj hlast
      by_cases hc : c == '\x00'
      · have hcv : c = '\x00' := by simpa using hc
        cases rest with
        | nil => exact absurd (by simp [hcv]) hlast
        | cons d t =>
          have hadj' : hasAdjNul (d :: t) = false := by
            simp only [hasAdjNul, Bool.or_eq_false_iff] at hadj
            exact hadj.2
          have hd : ¬(d == '\x00') = true := by
            simp only [hasAdjNul, Bool.or_eq_false_iff, Bool.and_eq_false_iff] at hadj
            rcases hadj.1 with h | h
            · exact absurd (by simpa using hcv) (by simpa using h)
            · simpa using h
          have hlast' : (d :: t).getLast? ≠ some '\x00' := by
            rwa [List.getLast?_cons_cons] at hlast
          have hrw : splitNul (c :: d :: t) = [] :: splitNul (d :: t) := by
            simp [splitNul, hc]
          rw [hrw]
          exact ihB (by simp) hadj' (by simpa using hd) hlast'
      · obtain ⟨f, fs, hrest⟩ : ∃ f fs, splitNul rest = f :: fs := by
          cases hsp : splitNul rest with
          | nil => exact absurd hsp (splitNul_ne_nil rest)
          | cons f fs => exact ⟨f, fs, rfl⟩
        have hrw : splitNul (c :: rest) = (c :: f) :: fs := by
          simp [splitNul, hc, hrest]
        rw [hrw]
        exact tailCase hc hadj hlast f fs hrest
    · intro _ hadj hhead hlast
      have hc : ¬(c == '\x00') = true := by
        intro h
        exact hhead (by simpa using (show c = '\x00' by simpa using h))
      obtain ⟨f, fs, hrest⟩ : ∃ f fs, splitNul rest = f :: fs := by
        cases hsp : splitNul rest with
        | nil => exact absurd hsp (splitNul_ne_nil rest)
        | cons f fs => exact ⟨f, fs, rfl⟩
      have hrw : splitNul (c :: rest) = (c :: f) :: fs := by
        simp [splitNul, hc, hrest]
      rw [hrw]
      intro hmem
      rcases List.mem_cons.mp hmem with h | h
      · exact List.cons_ne_nil c f h.symm
      · exact tailCase hc hadj hlast f fs hrest h

theorem zsplit_eq_nil_iff (s : String) :
    zsplit s = [] ↔ trimEndNul s.data = [] := by
  unfold zsplit
  by_cases h : (trimEndNul s.data).isEmpty
  · simp [h, List.isEmpty_iff.mp h]
  · simp only [h, Bool.false_eq_true, if_false]
    constructor
    · intro hmap
      exact absurd (List.map_eq_nil_iff.mp hmap) (splitNul_ne_nil _)
    · intro ht
      exact absurd (List.isEmpty_iff.mpr ht) (by simpa using h)

theorem zsplit_no_empty (s : String)
    (hadj : hasAdjNul (trimEndNul s.data) = false)
    (hhead : (trimEndNul s.data).head? ≠ some '\x00') :
    "" ∉ zsplit s := by
  unfold zsplit
  by_cases h : (trimEndNul s.data).isEmpty
  · simp [h]
  · simp only [h, Bool.false_eq_true, if_false]
    intro hmem
    obtain ⟨g, hg, hgs⟩ := List.mem_map.mp hmem
    have hgnil : g = [] := by
      simpa using congrArg String.data hgs
    subst hgnil
    have hne : trimEndNul s.data ≠ [] := fun hh => by simp [hh] at h
    exact (splitNul_fields (trimEndNul s.data)).2 hne hadj hhead
      (trimEndNul_getLast s.data) hg

/-! ### Helper lemmas: command traces -/

theorem runSeq_mem (env : CloneCmd → Bool) (cs : List CloneCmd) :
    ∀ c ∈ (runSeq env cs).2, c ∈ cs := by
  induction cs with
  | nil => simp [runSeq]
  | cons d t ih =>
    intro c hc
    by_cases hd : env d
    · simp only [runSeq, hd, if_true] at hc
      rcases List.mem_cons.mp hc with rfl | hc
      · exact List.mem_cons_self _ _
      · exact List.mem_cons_of_mem _ (ih _ hc)
    · simp only [runSeq, hd, Bool.false_eq_true, if_false] at hc
      rcases List.mem_cons.mp hc with rfl | hc
      · exact List.mem_cons_self _ _
      · simp at hc

theorem full_clone_count (env : CloneCmd → Bool) :
    (full_clone env).2.count CloneCmd.fullFetch = 1 := by
  unfold full_clone
  by_cases h1 : env .fullFetch <;> by_cases h2 : env .fullCheckout <;>
    by_cases h3 : env .fullSubmodule <;>
      simp [runSeq, h1, h2, h3, List.count_cons, List.count_nil]

/-! ### Claims -/

/-- C1: `is_dirty(path)` returns `false` exactly when the unchecked
`git diff --quiet` invocation exits 0, returns `true` exactly when the
exit code is 1, and returns an error (not a boolean) for every other exit
status, such as exit code 128 (or signal termination). -/
theorem C1_is_dirty_exit_codes (status : ProcExit) :
    (is_dirty status = .ok false ↔ status.code = some 0) ∧
    (is_dirty status = .ok true ↔ status.code = some 1) ∧
    ((∃ e, is_dirty status = .error e) ↔
      status.code ≠ some 0 ∧ status.code ≠ some 1) := by
  unfold is_dirty ProcExit.success
  by_cases h0 : status.code = some 0 <;> by_cases h1 : status.code = some 1 <;>
    simp_all

/-- C2: in `clone_repo`, once initialization succeeded, a successful
shallow-clone phase means no full-clone command is ever issued, the
overall result is success and no warning is logged; a failed shallow-clone
phase is logged as exactly one warning (not returned), the full-clone
phase runs exactly once (its fetch appears exactly once in the trace), and
the overall result is the result of the full-clone phase. -/
theorem C2_clone_fallback (env : CloneCmd → Bool)
    (hinit : (init_repo env).1 = true) :
    ((shallow_clone env).1 = true →
      (clone_repo env).ok = true ∧ (clone_repo env).warnings = 0 ∧
      ∀ c ∈ (clone_repo env).trace,
        c ≠ CloneCmd.fullFetch ∧ c ≠ CloneCmd.fullCheckout ∧
        c ≠ CloneCmd.fullSubmodule) ∧
    ((shallow_clone env).1 = false →
      (clone_repo env).ok = (full_clone env).1 ∧
      (clone_repo env).warnings = 1 ∧
      (clone_repo env).trace.count CloneCmd.fullFetch = 1) := by
  constructor
  · intro hs
    have hrw : clone_repo env = ⟨true, (init_repo env).2 ++ (shallow_clone env).2, 0⟩ := by
      unfold clone_repo
      rw [if_pos hinit, if_pos hs]
    refine ⟨by rw [hrw], by rw [hrw], ?_⟩
    intro c hc
    rw [hrw] at hc
    rcases List.mem_append.mp hc with h | h
    · have := runSeq_mem env _ c h
      simp only [List.mem_cons, List.not_mem_nil, or_false] at this
      rcases this with rfl | rfl <;> exact ⟨by simp, by simp, by simp⟩
    · have := runSeq_mem env _ c h
      simp only [List.mem_cons, List.not_mem_nil, or_false] at this
      rcases this with rfl | rfl | rfl <;> exact ⟨by simp, by simp, by simp⟩
  · intro hs
    have hrw : clone_repo env
        = ⟨(full_clone env).1,
           (init_repo env).2 ++ (shallow_clone env).2 ++ (full_clone env).2, 1⟩ := by
      unfold clone_repo
      rw [if_pos hinit, if_neg (by simp [hs])]
    refine ⟨by rw [hrw], by rw [hrw], ?_⟩
    rw [hrw]
    have hiz : (init_repo env).2.count CloneCmd.fullFetch = 0 := by
      rw [List.count_eq_zero]
      intro hmem
      have := runSeq_mem env _ _ hmem
      simp at this
    have hsz : (shallow_clone env).2.count CloneCmd.fullFetch = 0 := by
      rw [List.count_eq_zero]
      intro hmem
      have := runSeq_mem env _ _ hmem
      simp at this
    simp only [List.count_append, hiz, hsz, full_clone_count env]

/-- Witness for C2 at a concrete environment where only the shallow fetch
fails: initialization succeeds, one warning is logged, the full fetch is
issued exactly once and the overall result is the full-clone result. -/
theorem C2_clone_fallback_witness :
    (clone_repo envShallowFails).ok = (full_clone envShallowFails).1 ∧
    (clone_repo envShallowFails).warnings = 1 ∧
    (clone_repo envShallowFails).trace.count CloneCmd.fullFetch = 1 :=
  (C2_clone_fallback envShallowFails (by decide)).2 (by decide)

/-- Installing over a manager-owned hook file without `overwrite` replaces
it in place: no rename to `.legacy`, the `.legacy` sibling untouched. -/
theorem install_over_owned (cfg : Option String) (ht : HookType)
    (skip : Bool) (pc : String) (st : HookFiles) (c : String)
    (hhook : st.hook = some c) (hc : is_our_script c = true) :
    install_hook_script cfg ht false skip pc st
      = (⟨some (hookScript ht cfg skip pc), st.legacy⟩, [.installed ht]) := by
  unfold install_hook_script
  rw [hhook]
  simp [hc]

/-- C4 (counterexample): on the tool output `"\0a"` the NUL split yields a
list containing the empty string, and on the all-whitespace output `" "`
the result is `[" "]`, not the empty list — both contradicting the claim
as stated. -/
theorem C4_counterexample :
    ("" ∈ get_all_files (String.mk ['\x00', 'a'])) ∧
    get_all_files " " ≠ [] := by decide

/-- C4 (amended): the list-producing operations split on NUL after
trimming trailing NUL terminators; the result is empty exactly when the
output is empty after that trimming (not for arbitrary all-whitespace
output), and contains no empty-string element provided the trimmed output
does not begin with NUL and has no two adjacent NULs (as is the case for
well-formed `-z` output). -/
theorem C4_zsplit_amended (s : String) :
    ((intent_to_add_files s = [] ∧ get_changed_files s = [] ∧
      get_all_files s = [] ∧ get_staged_files s = []) ↔
        trimEndNul s.data = []) ∧
    (hasAdjNul (trimEndNul s.data) = false →
      (trimEndNul s.data).head? ≠ some '\x00' →
      "" ∉ intent_to_add_files s ∧ "" ∉ get_changed_files s ∧
      "" ∉ get_all_files s ∧ "" ∉ get_staged_files s) := by
  have hz := zsplit_eq_nil_iff s
  constructor
  · unfold intent_to_add_files get_changed_files get_all_files get_staged_files
    exact ⟨fun h => hz.mp h.1, fun h => ⟨hz.mpr h, hz.mpr h, hz.mpr h, hz.mpr h⟩⟩
  · intro h1 h2
    have h := zsplit_no_empty s h1 h2
    exact ⟨h, h, h, h⟩

/-- Witness for the amended C4 on the well-formed output `"a\0b\0"`. -/
theorem C4_zsplit_amended_witness :
    "" ∉ get_all_files (String.mk ['a', '\x00', 'b', '\x00']) :=
  ((C4_zsplit_amended (String.mk ['a', '\x00', 'b', '\x00'])).2
    (by decide) (by decide)).2.2.1

/-- C3: installing (no overwrite) over a foreign hook file moves it to the
`.legacy` path byte-for-byte and writes a fresh manager-owned script; the
subsequent uninstall deletes the manager-owned script, renames the
`.legacy` file back to the hook path and leaves no `.legacy` file. -/
theorem C3_foreign_legacy_roundtrip (ht : HookType) (cfg : Option String)
    (skip : Bool) (pc : String) (f : String) (L : Option String)
    (hf : is_our_script f = false) :
    install_hook_script cfg ht false skip pc ⟨some f, L⟩ =
      (⟨some (hookScript ht cfg skip pc), some f⟩,
        [.movedToLegacy ht, .installed ht]) ∧
    is_our_script (hookScript ht cfg skip pc) = true ∧
    uninstall_hook ht ⟨some (hookScript ht cfg skip pc), some f⟩ =
      (⟨some f, none⟩, [.uninstalled ht, .restored ht]) := by
  refine ⟨?_, hookScript_is_ours ht cfg skip pc, ?_⟩
  · simp [install_hook_script, hf]
  · simp [uninstall_hook, hookScript_is_ours]

/-- Witness for C3 at a concrete foreign script. -/
theorem C3_foreign_legacy_roundtrip_witness :
    install_hook_script none .preCommit false false "/x"
        ⟨some "#!/bin/sh\n", some "old"⟩ =
      (⟨some (hookScript .preCommit none false "/x"), some "#!/bin/sh\n"⟩,
        [.movedToLegacy .preCommit, .installed .preCommit]) ∧
    is_our_script (hookScript .preCommit none false "/x") = true ∧
    uninstall_hook .preCommit
        ⟨some (hookScript .preCommit none false "/x"), some "#!/bin/sh\n"⟩ =
      (⟨some "#!/bin/sh\n", none⟩,
        [.uninstalled .preCommit, .restored .preCommit]) :=
  C3_foreign_legacy_roundtrip .preCommit none false "/x" "#!/bin/sh\n"
    (some "old") (by decide)

/-- C5: hook-type resolution (used verbatim by both `install` and
`uninstall`, which call the same `get_hook_types`) is the three-level
fallback: a non-empty explicit list verbatim; otherwise the configuration's
`default_install_hook_types` (empty when the configuration is unavailable
or the field is absent); `[pre-commit]` when that is empty too. In
particular explicit `[]` with defaults `[pre-push]` resolves to
`[pre-push]`, and both empty/unavailable resolves to `[pre-commit]`. -/
theorem C5_hook_type_resolution :
    (∀ (project : Option ProjectConfig) (hts : List HookType),
      get_hook_types project hts =
        if hts.isEmpty then
          if ((project.map
                (fun p => p.default_install_hook_types.getD [])).getD []).isEmpty
          then [HookType.preCommit]
          else (project.map
                (fun p => p.default_install_hook_types.getD [])).getD []
        else hts) ∧
    get_hook_types (some ⟨some [.prePush]⟩) [] = [.prePush] ∧
    get_hook_types (some ⟨some []⟩) [] = [.preCommit] ∧
    get_hook_types (some ⟨none⟩) [] = [.preCommit] ∧
    get_hook_types none [] = [.preCommit] := by
  refine ⟨?_, rfl, rfl, rfl, rfl⟩
  intro project hts
  unfold get_hook_types
  cases project <;> cases hts <;> simp

/-- C6: a manager-owned file at the hook path (no overwrite) is replaced
in place with no `.legacy` backup; consequently a second install in a row
changes no `.legacy` file. -/
theorem C6_owned_replaced_in_place (ht : HookType) (cfg : Option String)
    (skip : Bool) (pc : String) (c : String) (L : Option String)
    (hc : is_our_script c = true) :
    install_hook_script cfg ht false skip pc ⟨some c, L⟩ =
      (⟨some (hookScript ht cfg skip pc), L⟩, [.installed ht]) ∧
    (∀ st : HookFiles,
      ((install_hook_script cfg ht false skip pc
          (install_hook_script cfg ht false skip pc st).1).1).legacy
        = ((install_hook_script cfg ht false skip pc st).1).legacy) := by
  constructor
  · exact install_over_owned cfg ht skip pc ⟨some c, L⟩ c rfl hc
  · intro st
    rw [install_over_owned cfg ht skip pc
      (install_hook_script cfg ht false skip pc st).1 (hookScript ht cfg skip pc)
      (install_hook_script_hook cfg ht false skip pc st)
      (hookScript_is_ours ht cfg skip pc)]

/-- Witness for C6 at a concrete manager-owned content. -/
theorem C6_owned_replaced_in_place_witness :
    install_hook_script none .preCommit false false "/x"
        ⟨some CURRENT_HASH, none⟩ =
      (⟨some (hookScript .preCommit none false "/x"), none⟩,
        [.installed .preCommit]) :=
  (C6_owned_replaced_in_place .preCommit none false "/x" CURRENT_HASH none
    (by decide)).1

/-- C7: for every hook type, installing (via the `install` command, with
the hook type given explicitly) when no file exists at the hook path and
then uninstalling that hook type leaves no file at the hook path and no
`.legacy` file. -/
theorem C7_roundtrip (ht : HookType) (cfg : Option String)
    (project : Option ProjectConfig) (amc : Bool) (pc : String)
    (fs : HooksDir) (hfs : fs ht = ⟨none, none⟩) :
    ((install false project cfg [ht] false amc pc fs).2.1) ht
      = ⟨some (hookScript ht cfg amc pc), none⟩ ∧
    ((uninstall project [ht]
        ((install false project cfg [ht] false amc pc fs).2.1)).2.1) ht
      = ⟨none, none⟩ := by
  have hres : get_hook_types project [ht] = [ht] := by
    simp [get_hook_types]
  simp [install, uninstall, hres, HooksDir.set, hfs, install_hook_script,
    uninstall_hook, hookScript_is_ours]

/-- Witness for C7 on an empty hooks directory. -/
theorem C7_roundtrip_witness :
    ((install false none none [.prePush] false false "/x"
        (fun _ => ⟨none, none⟩)).2.1) .prePush
      = ⟨some (hookScript .prePush none false "/x"), none⟩ ∧
    ((uninstall none [.prePush]
        ((install false none none [.prePush] false false "/x"
          (fun _ => ⟨none, none⟩)).2.1)).2.1) .prePush
      = ⟨none, none⟩ :=
  C7_roundtrip .prePush none none false "/x" (fun _ => ⟨none, none⟩) rfl

/-- C8: `has_hooks_path_set` is true iff the `core.hooksPath` lookup exits
0 with non-empty trimmed output (a non-zero exit yields `false`, not an
error); when it is true, `install` refuses: it reports the refusal,
returns `Failure`, and leaves every hook file untouched. -/
theorem C8_hooks_path_refusal :
    (∀ (status : ProcExit) (out : String),
      has_hooks_path_set status out = true ↔
        (status.code = some 0 ∧ out.trim ≠ "")) ∧
    (∀ (project : Option ProjectConfig) (cfg : Option String)
        (hts : List HookType) (ow amc : Bool) (pc : String) (fs : HooksDir),
      install true project cfg hts ow amc pc fs
        = (.failure, fs, [.refusingHooksPath])) := by
  constructor
  · intro status out
    unfold has_hooks_path_set ProcExit.success
    by_cases h0 : status.code = some 0 <;> simp [h0]
    rw [Bool.eq_false_iff]
    exact not_congr (String.isEmpty_iff out.trim)
  · intro project cfg hts ow amc pc fs
    rfl

/-- C9: install with `overwrite` over any existing hook file (owned or
foreign) creates no `.legacy` backup, leaves the `.legacy` sibling exactly
as it was, and overwrites the content without preserving it anywhere. -/
theorem C9_overwrite_frame (ht : HookType) (cfg : Option String)
    (skip : Bool) (pc : String) (c : String) (L : Option String) :
    install_hook_script cfg ht true skip pc ⟨some c, L⟩ =
      (⟨some (hookScript ht cfg skip pc), L⟩,
        [.overwriting ht, .installed ht]) := by
  simp [install_hook_script]

/-- C10: uninstall on an absent hook file, or on a file that is not
manager-owned, performs no filesystem mutation (hook and `.legacy` paths
both unchanged), and the `uninstall` command always returns success. -/
theorem C10_uninstall_frame (ht : HookType) (c : String) (L : Option String)
    (hc : is_our_script c = false) :
    uninstall_hook ht ⟨none, L⟩ = (⟨none, L⟩, [.skippedMissing ht]) ∧
    uninstall_hook ht ⟨some c, L⟩ = (⟨some c, L⟩, [.skippedUnmanaged ht]) ∧
    (∀ (project : Option ProjectConfig) (hts : List HookType) (fs : HooksDir),
      (uninstall project hts fs).1 = .success) := by
  refine ⟨rfl, ?_, fun _ _ _ => rfl⟩
  simp [uninstall_hook, hc]

/-- Witness for C10 at a concrete foreign file with a `.legacy` sibling. -/
theorem C10_uninstall_frame_witness :
    uninstall_hook .commitMsg ⟨some "echo hi", some "bak"⟩
      = (⟨some "echo hi", some "bak"⟩, [.skippedUnmanaged .commitMsg]) :=
  (C10_uninstall_frame .commitMsg "echo hi" (some "bak") (by decide)).2.1

end PreCommit
